import Mathlib

/-!
Verification of the Hasanat points-award subsystem.

This file is a shallow embedding of the core of the Hasanat repository:
the prayer-marking edge function (award-prayer-hasanat), the fasting
functions (set-fasting-status, break-fast), the missed-prayer sweep
(missed-prayer-job), the ledger trigger `fn_update_hasanat_totals`, and
the friend-notification recipient resolver `fn_get_friend_push_tokens`.

Modelling conventions:
* Instants (TIMESTAMPTZ) are `Nat` milliseconds; `Date` values are `Nat`;
  user ids (UUIDs) are `Nat`.
* The database tables are Lean lists; the UNIQUE constraints of the schema
  (`uq_prayer_log`, `uq_fasting_log`, `uq_ledger_idempotency`) are modelled
  as insert-if-absent checks: an insert that would violate the constraint
  is the 23505 branch of the corresponding edge function.
* The ledger idempotency key in the source is the string
  `userId:date:prayer:action` (resp. `userId:date:fasting_bonus`).  Since
  user ids, dates, prayer names and action names contain no ambiguous
  separators, the string is determined by and determines its components;
  it is modelled as a structure holding the user, the date and the
  remaining tag string.
* The `hasanat_totals` / `hasanat_daily_totals` caches maintained by the
  AFTER INSERT trigger are total functions updated on each ledger insert.
-/

inductive Prayer
  | fajr
  | dhuhr
  | asr
  | maghrib
  | isha
deriving DecidableEq, Repr

inductive PrayerStatus
  | on_time
  | late
  | missed
deriving DecidableEq, Repr

inductive LedgerAction
  | prayer_on_time
  | prayer_late
  | fasting_bonus
  | fasting_revoke
  | missed_prayer
deriving DecidableEq, Repr

/-- The prayer-name strings used in the idempotency keys. -/
def prayerName : Prayer → String
  | .fajr => "fajr"
  | .dhuhr => "dhuhr"
  | .asr => "asr"
  | .maghrib => "maghrib"
  | .isha => "isha"

/-- The action-name strings used in the idempotency keys. -/
def actionName : LedgerAction → String
  | .prayer_on_time => "prayer_on_time"
  | .prayer_late => "prayer_late"
  | .fasting_bonus => "fasting_bonus"
  | .fasting_revoke => "fasting_revoke"
  | .missed_prayer => "missed_prayer"

/-- One `prayer_day_timings` row: the six instants plus derived midnight. -/
structure Timings where
  fajr : Nat
  sunrise : Nat
  dhuhr : Nat
  asr : Nat
  maghrib : Nat
  isha : Nat
  midnight : Nat
deriving DecidableEq, Repr

/-- `timings[prayer]`: the start instant of a prayer's window. -/
def Timings.timeOf (t : Timings) : Prayer → Nat
  | .fajr => t.fajr
  | .dhuhr => t.dhuhr
  | .asr => t.asr
  | .maghrib => t.maghrib
  | .isha => t.isha

/-- `timings[endTimeMap[prayer]]`: the fixed successor map
fajr→sunrise, dhuhr→asr, asr→maghrib, maghrib→isha, isha→midnight. -/
def Timings.endOf (t : Timings) : Prayer → Nat
  | .fajr => t.sunrise
  | .dhuhr => t.asr
  | .asr => t.maghrib
  | .maghrib => t.isha
  | .isha => t.midnight

/-- A `prayer_logs` row. -/
structure PrayerLog where
  user : Nat
  date : Nat
  prayer : Prayer
  status : PrayerStatus
  markedAt : Option Nat
  prayerTime : Nat
  prayerEndTime : Nat
  pointsAwarded : Int
deriving DecidableEq, Repr

/-- A `fasting_logs` row. -/
structure FastingLog where
  user : Nat
  date : Nat
  isFasting : Bool
  broken : Bool
  brokenAt : Option Nat
  pointsAwarded : Int
deriving DecidableEq, Repr

/-- The ledger idempotency key `user:date:tag` (see the header comment). -/
structure IdemKey where
  user : Nat
  date : Nat
  tag : String
deriving DecidableEq, Repr

/-- Key `userId:date:prayer:action` built by the prayer handlers. -/
def prayerIdemKey (u d : Nat) (p : Prayer) (a : LedgerAction) : IdemKey :=
  ⟨u, d, prayerName p ++ ":" ++ actionName a⟩

/-- Key `userId:date:action` built by the fasting handlers. -/
def fastingIdemKey (u d : Nat) (a : LedgerAction) : IdemKey :=
  ⟨u, d, actionName a⟩

/-- A `hasanat_ledger` row. -/
structure LedgerEntry where
  user : Nat
  action : LedgerAction
  points : Int
  date : Nat
  prayer : Option Prayer
  idempotencyKey : IdemKey
deriving DecidableEq, Repr

/-- The mutable database state shared by all operations. -/
structure Store where
  prayerLogs : List PrayerLog
  fastingLogs : List FastingLog
  ledger : List LedgerEntry
  totals : Nat → Int
  dailyTotals : Nat → Nat → Int

/-- The empty database. -/
def emptyStore : Store := ⟨[], [], [], fun _ => 0, fun _ _ => 0⟩

/-- A `prayer_logs` row for (u, d, p) exists (the `uq_prayer_log` check). -/
def logExists (s : Store) (u d : Nat) (p : Prayer) : Prop :=
  ∃ l ∈ s.prayerLogs, l.user = u ∧ l.date = d ∧ l.prayer = p

instance (s : Store) (u d : Nat) (p : Prayer) : Decidable (logExists s u d p) := by
  unfold logExists
  infer_instance

/-- A ledger row with this idempotency key exists (`uq_ledger_idempotency`). -/
def keyExists (s : Store) (k : IdemKey) : Prop :=
  ∃ e ∈ s.ledger, e.idempotencyKey = k

instance (s : Store) (k : IdemKey) : Decidable (keyExists s k) := by
  unfold keyExists
  infer_instance

/-- The AFTER INSERT trigger `fn_update_hasanat_totals`: upsert-add the
entry's points into `hasanat_totals` and `hasanat_daily_totals`. -/
def applyTotalsTrigger (s : Store) (e : LedgerEntry) : Store :=
  { s with
    totals := fun v => if v = e.user then s.totals v + e.points else s.totals v
    dailyTotals := fun v dd =>
      if v = e.user ∧ dd = e.date then s.dailyTotals v dd + e.points
      else s.dailyTotals v dd }

/-- Insert into `hasanat_ledger`.  A duplicate idempotency key is the 23505
branch that every handler treats as success-no-op; a fresh insert fires the
totals trigger. -/
def insertLedger (s : Store) (e : LedgerEntry) : Store :=
  if keyExists s e.idempotencyKey then s
  else { applyTotalsTrigger s e with ledger := s.ledger ++ [e] }

/-- The typed outcomes of the award-prayer-hasanat handler. -/
inductive MarkResult
  | success (status : PrayerStatus) (points : Int)
  | timingsNotFound
  | windowClosed
  | tooEarly
  | alreadyLogged
deriving DecidableEq, Repr

def POINTS_ON_TIME : Int := 10

def POINTS_LATE : Int := 5

/-- Steps 10-12 of the award-prayer-hasanat handler: insert the prayer log
(the `uq_prayer_log` violation is mapped to ALREADY_LOGGED) and then the
ledger entry (a duplicate key is swallowed inside `insertLedger`). -/
def markInsert (s : Store) (u d : Nat) (p : Prayer) (now pTime pEnd : Nat)
    (status : PrayerStatus) (points : Int) (action : LedgerAction) :
    MarkResult × Store :=
  if logExists s u d p then (.alreadyLogged, s)
  else
    let s1 := { s with prayerLogs :=
      s.prayerLogs ++ [⟨u, d, p, status, some now, pTime, pEnd, points⟩] }
    (.success status points,
      insertLedger s1 ⟨u, action, points, d, some p, prayerIdemKey u d p action⟩)

/-- The award-prayer-hasanat handler (steps 4-12): load timings, reject a
closed window (`now > prayerEndTime`), reject an unopened one
(`now < prayerTime`), decide on-time versus late by the deadline
`prayerTime + onTimeWindow * 60 * 1000`, then insert the log and the
ledger entry.  `window` is the user's `on_time_window_minutes`. -/
def markPrayer (s : Store) (u d : Nat) (p : Prayer) (now window : Nat)
    (timings : Option Timings) : MarkResult × Store :=
  match timings with
  | none => (.timingsNotFound, s)
  | some t =>
    let pTime := t.timeOf p
    let pEnd := t.endOf p
    if pEnd < now then (.windowClosed, s)
    else if now < pTime then (.tooEarly, s)
    else if now ≤ pTime + window * 60 * 1000 then
      markInsert s u d p now pTime pEnd .on_time POINTS_ON_TIME .prayer_on_time
    else
      markInsert s u d p now pTime pEnd .late POINTS_LATE .prayer_late

/-- The typed outcomes of the set-fasting-status handler. -/
inductive FastResult
  | success (points : Int)
  | alreadySet
deriving DecidableEq, Repr

/-- The typed outcomes of the break-fast handler. -/
inductive BreakResult
  | success (points : Int)
  | noFastingLog
  | notFasting
  | alreadyBroken
deriving DecidableEq, Repr

def FASTING_BONUS_POINTS : Int := 20

def FASTING_REVOKE_POINTS : Int := -20

/-- The `fasting_logs` lookup `.eq(user_id).eq(date).single()`. -/
def findFastingLog (s : Store) (u d : Nat) : Option FastingLog :=
  s.fastingLogs.find? fun l => decide (l.user = u ∧ l.date = d)

/-- The set-fasting-status handler (steps 4-6): reject ALREADY_SET when a
row for (user, date) exists, otherwise insert the fasting log with
`points_awarded = 20` if fasting else `0`, and, when fasting, insert the
`fasting_bonus` ledger entry. -/
def setFastingStatus (s : Store) (u d : Nat) (isFasting : Bool) :
    FastResult × Store :=
  match findFastingLog s u d with
  | some _ => (.alreadySet, s)
  | none =>
    let points : Int := if isFasting then FASTING_BONUS_POINTS else 0
    let s1 := { s with fastingLogs :=
      s.fastingLogs ++ [⟨u, d, isFasting, false, none, points⟩] }
    let s2 :=
      if isFasting then
        insertLedger s1 ⟨u, .fasting_bonus, FASTING_BONUS_POINTS, d, none,
          fastingIdemKey u d .fasting_bonus⟩
      else s1
    (.success points, s2)

/-- The break-fast handler (steps 3-5): require an existing fasting log with
`is_fasting = true` and `broken = false`; mark it broken with
`broken_at = now` and `points_awarded = 0`; insert the `fasting_revoke`
ledger entry (-20).  The source updates the row by primary key; here the
row is addressed by (user, date), unique by `uq_fasting_log`. -/
def breakFast (s : Store) (u d now : Nat) : BreakResult × Store :=
  match findFastingLog s u d with
  | none => (.noFastingLog, s)
  | some log =>
    if !log.isFasting then (.notFasting, s)
    else if log.broken then (.alreadyBroken, s)
    else
      let s1 := { s with fastingLogs := s.fastingLogs.map fun l =>
        if l.user = u ∧ l.date = d then
          { l with broken := true, brokenAt := some now, pointsAwarded := 0 }
        else l }
      (.success FASTING_REVOKE_POINTS,
        insertLedger s1 ⟨u, .fasting_revoke, FASTING_REVOKE_POINTS, d, none,
          fastingIdemKey u d .fasting_revoke⟩)

/-- One `prayer_day_timings` row returned by the sweep's query for today
(the row's own date column equals the queried date). -/
structure TimingsRow where
  user : Nat
  timings : Timings
deriving DecidableEq, Repr

/-- The counters returned by the missed-prayer-job handler. -/
structure SweepCounts where
  processed : Nat
  missed : Nat
deriving DecidableEq, Repr

/-- The prayer log inserted by the sweep: `status = missed`,
`marked_at = null`, `points_awarded = 0`. -/
def missedLog (u today : Nat) (p : Prayer) (t : Timings) : PrayerLog :=
  ⟨u, today, p, .missed, none, t.timeOf p, t.endOf p, 0⟩

/-- The ledger entry inserted by the sweep: `action = missed_prayer`,
`points = 0`, key `user:date:prayer:missed_prayer`. -/
def missedEntry (u today : Nat) (p : Prayer) : LedgerEntry :=
  ⟨u, .missed_prayer, 0, today, some p, prayerIdemKey u today p .missed_prayer⟩

/-- The body of the sweep's inner loop for one (timings row, prayer) pair:
skip while the window is open (`now ≤ prayerEndTime`), skip when a log
already exists, otherwise count it processed and insert the missed log and
its ledger entry. -/
def sweepItem (today now : Nat) (acc : Store × SweepCounts)
    (it : TimingsRow × Prayer) : Store × SweepCounts :=
  if now ≤ it.1.timings.endOf it.2 then acc
  else if logExists acc.1 it.1.user today it.2 then acc
  else
    let s1 := { acc.1 with prayerLogs :=
      acc.1.prayerLogs ++ [missedLog it.1.user today it.2 it.1.timings] }
    (insertLedger s1 (missedEntry it.1.user today it.2),
      ⟨acc.2.processed + 1, acc.2.missed + 1⟩)

/-- The iteration order of PRAYER_NAMES. -/
def prayersList : List Prayer := [.fajr, .dhuhr, .asr, .maghrib, .isha]

/-- The nested loops of the sweep, flattened in iteration order. -/
def sweepItems (rows : List TimingsRow) : List (TimingsRow × Prayer) :=
  rows.flatMap fun r => prayersList.map fun p => (r, p)

/-- The missed-prayer-job handler: for every timings row for today and each
of the five prayers, backfill a missed record once the window has closed
unattended. -/
def missedPrayerJob (s : Store) (rows : List TimingsRow) (today now : Nat) :
    Store × SweepCounts :=
  (sweepItems rows).foldl (sweepItem today now) (s, ⟨0, 0⟩)

/-- A `user_settings` row (the notification-relevant columns). -/
structure UserSettings where
  quietStart : Option Nat
  quietEnd : Option Nat
  notifyFriendPrayer : Bool
  notifyFriendFasting : Bool
  notifyFriendIftarPost : Bool
  notifyMissedPrayer : Bool
deriving DecidableEq, Repr

/-- The social tables read by `fn_get_friend_push_tokens`: `friendships`
(ordered pairs), `blocks` as (blocker, blocked), `device_tokens` as
(user, token), `user_settings` keyed by user. -/
structure SocialDB where
  friendships : List (Nat × Nat)
  blocks : List (Nat × Nat)
  deviceTokens : List (Nat × String)
  settingsRows : List (Nat × UserSettings)
deriving DecidableEq, Repr

/-- `fn_get_friend_ids`: the other side of every friendship containing the
target user. -/
def fnGetFriendIds (db : SocialDB) (target : Nat) : List Nat :=
  (db.friendships.filter fun fr => decide (fr.1 = target ∨ fr.2 = target)).map
    fun fr => if fr.1 = target then fr.2 else fr.1

/-- The CASE on `notification_type` in `fn_get_friend_push_tokens`; unknown
categories default to enabled (ELSE TRUE). -/
def prefEnabled (us : UserSettings) (ntype : String) : Bool :=
  if ntype = "friend_prayer" then us.notifyFriendPrayer
  else if ntype = "friend_fasting" then us.notifyFriendFasting
  else if ntype = "friend_iftar_post" then us.notifyFriendIftarPost
  else if ntype = "missed_prayer" then us.notifyMissedPrayer
  else true

/-- The quiet-hours test of `fn_get_friend_push_tokens`: with both bounds
set, `CURRENT_TIME BETWEEN start AND end` when `start <= end`, and the
wraparound `CURRENT_TIME >= start OR CURRENT_TIME <= end` otherwise; with
either bound NULL the friend is never suppressed. -/
def inQuietHours (us : UserSettings) (nowTime : Nat) : Bool :=
  match us.quietStart, us.quietEnd with
  | some qs, some qe =>
      if qs ≤ qe then decide (qs ≤ nowTime ∧ nowTime ≤ qe)
      else decide (qs ≤ nowTime ∨ nowTime ≤ qe)
  | _, _ => false

/-- The `user_settings` lookup joined by `fn_get_friend_push_tokens`. -/
def lookupSettings (db : SocialDB) (u : Nat) : Option UserSettings :=
  (db.settingsRows.find? fun r => decide (r.1 = u)).map fun r => r.2

/-- The rows `fn_get_friend_push_tokens` produces for one friend: its
device tokens, provided the settings join succeeds, the friend has not
blocked the target (`NOT EXISTS blocks(blocker := friend, blocked :=
target)` — only this direction is checked), the per-category preference is
enabled, and the friend is not inside quiet hours. -/
def friendTokensFor (db : SocialDB) (target : Nat) (ntype : String)
    (nowTime : Nat) (f : Nat) : List (String × Nat) :=
  match lookupSettings db f with
  | none => []
  | some us =>
    if (f, target) ∉ db.blocks ∧ prefEnabled us ntype = true ∧
        inQuietHours us nowTime = false then
      (db.deviceTokens.filter fun dt => decide (dt.1 = f)).map fun dt =>
        (dt.2, f)
    else []

/-- `fn_get_friend_push_tokens`: the union of the eligible token rows over
the target's accepted friends. -/
def fnGetFriendPushTokens (db : SocialDB) (target : Nat) (ntype : String)
    (nowTime : Nat) : List (String × Nat) :=
  (fnGetFriendIds db target).flatMap (friendTokensFor db target ntype nowTime)

/-- The recipient set exactly as the specification words it: accepted
friends with a settings row and a device token, excluding a friend who has
blocked or is blocked by the acting user, restricted by the per-category
preference and the quiet-hours window. -/
def claimRecipients (db : SocialDB) (target : Nat) (ntype : String)
    (nowTime : Nat) (tok : String) (f : Nat) : Prop :=
  f ∈ fnGetFriendIds db target ∧ (f, tok) ∈ db.deviceTokens ∧
  (∃ us ∈ (lookupSettings db f).toList,
      prefEnabled us ntype = true ∧ inQuietHours us nowTime = false) ∧
  (f, target) ∉ db.blocks ∧ (target, f) ∉ db.blocks

instance (db : SocialDB) (target : Nat) (ntype : String) (nowTime : Nat)
    (tok : String) (f : Nat) :
    Decidable (claimRecipients db target ntype nowTime tok f) := by
  unfold claimRecipients
  infer_instance

/-- The request-style operations of the core, for whole-trace invariants. -/
inductive Op
  | markOp (u d : Nat) (p : Prayer) (now window : Nat) (timings : Option Timings)
  | setFastingOp (u d : Nat) (isFasting : Bool)
  | breakFastOp (u d now : Nat)
  | sweepOp (rows : List TimingsRow) (today now : Nat)

/-- The state effect of one operation. -/
def applyOp (s : Store) : Op → Store
  | .markOp u d p now w t => (markPrayer s u d p now w t).2
  | .setFastingOp u d b => (setFastingStatus s u d b).2
  | .breakFastOp u d n => (breakFast s u d n).2
  | .sweepOp rows td n => (missedPrayerJob s rows td n).1

/-- Run a sequence of operations from the empty database. -/
def runOps (ops : List Op) : Store := ops.foldl applyOp emptyStore

/-- Sum of the point deltas of a user's ledger rows. -/
def ledgerSum (led : List LedgerEntry) (u : Nat) : Int :=
  ((led.filter fun e => decide (e.user = u)).map fun e => e.points).sum

/-- Sum of the point deltas of a user's ledger rows for one date. -/
def ledgerDaySum (led : List LedgerEntry) (u d : Nat) : Int :=
  ((led.filter fun e => decide (e.user = u ∧ e.date = d)).map
    fun e => e.points).sum

/-!
Interleaved execution.  A marking request that passed its window checks,
and a sweep iteration that passed its window check, each perform two
store writes: the prayer-log insert (guarded by `uq_prayer_log`) and the
ledger insert (guarded by `uq_ledger_idempotency`).  Concurrent requests
interleave at the granularity of these single-row writes; `MProc` is the
per-request control state between them.
-/

/-- The points awarded with each status (10 on-time / 5 late / 0 missed). -/
def statusPoints : PrayerStatus → Int
  | .on_time => POINTS_ON_TIME
  | .late => POINTS_LATE
  | .missed => 0

/-- The ledger action recorded with each status. -/
def statusAction : PrayerStatus → LedgerAction
  | .on_time => .prayer_on_time
  | .late => .prayer_late
  | .missed => .missed_prayer

/-- The control point of an in-flight request. -/
inductive Phase
  | start
  | logDone
  | done
  | failed
deriving DecidableEq, Repr

/-- An in-flight marking request (status on_time/late) or sweep iteration
(status missed) for one (user, date, prayer). -/
structure MProc where
  user : Nat
  date : Nat
  prayer : Prayer
  status : PrayerStatus
  markedAt : Option Nat
  pTime : Nat
  pEnd : Nat
  phase : Phase
deriving DecidableEq, Repr

/-- The prayer log this request inserts. -/
def procLog (pr : MProc) : PrayerLog :=
  ⟨pr.user, pr.date, pr.prayer, pr.status, pr.markedAt, pr.pTime, pr.pEnd,
    statusPoints pr.status⟩

/-- The ledger entry this request inserts. -/
def procEntry (pr : MProc) : LedgerEntry :=
  ⟨pr.user, statusAction pr.status, statusPoints pr.status, pr.date,
    some pr.prayer,
    prayerIdemKey pr.user pr.date pr.prayer (statusAction pr.status)⟩

/-- A global configuration: the store plus the in-flight requests. -/
structure Config where
  store : Store
  procs : List MProc

/-- One atomic store write by one in-flight request: the prayer-log insert
succeeds only if no row for the triple exists (otherwise the 23505 branch
ends the request as ALREADY_LOGGED / sweep-skip), and the ledger insert
treats a duplicate key as success. -/
inductive Step : Config → Config → Prop
  | logOk (s : Store) (l r : List MProc) (pr : MProc)
      (hph : pr.phase = .start)
      (hno : ¬ logExists s pr.user pr.date pr.prayer) :
      Step ⟨s, l ++ pr :: r⟩
        ⟨{ s with prayerLogs := s.prayerLogs ++ [procLog pr] },
          l ++ { pr with phase := .logDone } :: r⟩
  | logConflict (s : Store) (l r : List MProc) (pr : MProc)
      (hph : pr.phase = .start)
      (hex : logExists s pr.user pr.date pr.prayer) :
      Step ⟨s, l ++ pr :: r⟩ ⟨s, l ++ { pr with phase := .failed } :: r⟩
  | ledgerWrite (s : Store) (l r : List MProc) (pr : MProc)
      (hph : pr.phase = .logDone) :
      Step ⟨s, l ++ pr :: r⟩
        ⟨insertLedger s (procEntry pr), l ++ { pr with phase := .done } :: r⟩

/-- Number of prayer-log rows for one (user, date, prayer). -/
def countTriple (logs : List PrayerLog) (u d : Nat) (p : Prayer) : Nat :=
  logs.countP fun lg => decide (lg.user = u ∧ lg.date = d ∧ lg.prayer = p)

/-- Number of ledger rows with nonzero points for one (user, date, prayer). -/
def countScored (led : List LedgerEntry) (u d : Nat) (p : Prayer) : Nat :=
  led.countP fun e =>
    decide (e.user = u ∧ e.date = d ∧ e.prayer = some p ∧ e.points ≠ 0)

/-- Number of in-flight requests for the triple that have inserted their
log but not yet their nonzero-point ledger entry. -/
def countScoredProcs (ps : List MProc) (u d : Nat) (p : Prayer) : Nat :=
  ps.countP fun pr =>
    decide (pr.user = u ∧ pr.date = d ∧ pr.prayer = p ∧
      pr.phase = .logDone ∧ statusPoints pr.status ≠ 0)

/-- The concurrency invariant: at most one log row per triple; at most one
nonzero-point ledger row per triple, counting an in-flight request that
has already claimed the triple's log; and a triple with no log row has
neither a scored ledger row nor such an in-flight request. -/
def ConcInv (c : Config) : Prop :=
  (∀ u d p, countTriple c.store.prayerLogs u d p ≤ 1) ∧
  (∀ u d p, countScored c.store.ledger u d p +
      countScoredProcs c.procs u d p ≤ 1) ∧
  (∀ u d p, ¬ logExists c.store u d p →
      countScored c.store.ledger u d p = 0 ∧
      countScoredProcs c.procs u d p = 0)

/-- Timings used for concrete checks: fajr 0 (ends 10), dhuhr 20 (ends 30),
asr 30 (ends 40), maghrib 40 (ends 50), isha 50 (ends 60). -/
def cexTimings : Timings := ⟨0, 10, 20, 30, 40, 50, 60⟩

/-- A store whose only row is an existing fajr log for user 0, date 0. -/
def cexStore : Store :=
  { emptyStore with prayerLogs := [⟨0, 0, .fajr, .on_time, some 5, 0, 10, 10⟩] }

/-- A store whose only row is an existing fasting log for user 0, date 0. -/
def c8Store : Store :=
  { emptyStore with fastingLogs := [⟨0, 0, true, false, none, 20⟩] }

/-- Sum of the point deltas of a user's fasting-related ledger rows (the
`fasting_bonus` and `fasting_revoke` actions) for one date. -/
def fastingActivitySum (led : List LedgerEntry) (u d : Nat) : Int :=
  ((led.filter fun e => decide (e.user = u ∧ e.date = d ∧
    (e.action = .fasting_bonus ∨ e.action = .fasting_revoke))).map
    fun e => e.points).sum

/-- The (user, prayer) pair of one sweep iteration. -/
def itemTriple (it : TimingsRow × Prayer) : Nat × Prayer := (it.1.user, it.2)

/-- A sweep iteration backfills a missed record exactly when, relative to
the pre-sweep store, the window has closed (`now > end(p)`) and no prayer
log exists for the triple. -/
def qualifies (s : Store) (today now : Nat) (it : TimingsRow × Prayer) : Prop :=
  it.1.timings.endOf it.2 < now ∧ ¬ logExists s it.1.user today it.2

instance (s : Store) (today now : Nat) (it : TimingsRow × Prayer) :
    Decidable (qualifies s today now it) := by
  unfold qualifies
  infer_instance

/-- The sweep iterations that backfill a missed record, in iteration
order. -/
def missedFor (s : Store) (rows : List TimingsRow) (today now : Nat) :
    List (TimingsRow × Prayer) :=
  (sweepItems rows).filter fun it => decide (qualifies s today now it)

/-- The per-row fasting-record invariant of C10: the awarded points are 20
exactly for an unbroken declared fast and 0 otherwise, and only a declared
fast can be broken. -/
def FastingInv (l : FastingLog) : Prop :=
  l.pointsAwarded = (if l.isFasting = true ∧ l.broken = false then 20 else 0) ∧
  (l.broken = true → l.isFasting = true)

/-- The totals-cache invariant of C3: both aggregate caches agree with the
sums over the ledger. -/
def TotalsAgree (s : Store) : Prop :=
  (∀ u, s.totals u = ledgerSum s.ledger u) ∧
  (∀ u d, s.dailyTotals u d = ledgerDaySum s.ledger u d)

/-- The fasting-table well-formedness carried through C10's induction: every
row satisfies `FastingInv` and (user, date) is unique (`uq_fasting_log`). -/
def FastingWF (s : Store) : Prop :=
  (∀ l ∈ s.fastingLogs, FastingInv l) ∧
  s.fastingLogs.Pairwise fun a b => (a.user, a.date) ≠ (b.user, b.date)

/-- The initial configuration of the interleaved machine: the empty store
with a collection of requests that have not yet written anything. -/
def initConfig (ps : List MProc) : Config := ⟨emptyStore, ps⟩

/-- A social state where the acting user 0 has friend 1 and has blocked 1,
but the friendship row is still present: friendships [(0,1)],
blocks [(0,1)], one token "t" for user 1, permissive settings for 1. -/
def c9DB : SocialDB :=
  ⟨[(0, 1)], [(0, 1)], [(1, "t")],
    [(1, ⟨none, none, true, true, true, true⟩)]⟩

/-!  Theorems.  -/



/-- C1: with timings present and no existing record for the triple, marking
before `start(p)` is rejected TooEarly, marking after `end(p)` is rejected
WindowClosed, marking in `[start, start+window]` (within the open window)
succeeds with status on_time and 10 points, and marking in
`(start+window, end]` succeeds with status late and 5 points, where
`end(p)` is the fixed successor map embodied in `Timings.endOf`. -/
theorem c1_mark_window (s : Store) (u d : Nat) (p : Prayer) (now window : Nat)
    (t : Timings) (hse : t.timeOf p ≤ t.endOf p)
    (hnolog : ¬ logExists s u d p) :
    (now < t.timeOf p → (markPrayer s u d p now window (some t)).1 = .tooEarly) ∧
    (t.endOf p < now →
      (markPrayer s u d p now window (some t)).1 = .windowClosed) ∧
    (t.timeOf p ≤ now → now ≤ t.endOf p →
      now ≤ t.timeOf p + window * 60 * 1000 →
      (markPrayer s u d p now window (some t)).1 = .success .on_time 10) ∧
    (t.timeOf p + window * 60 * 1000 < now → now ≤ t.endOf p →
      (markPrayer s u d p now window (some t)).1 = .success .late 5) := by
  refine ⟨?_, ?_, ?_, ?_⟩
  · intro h
    have h1 : ¬ t.endOf p < now := by omega
    simp [markPrayer, h, h1]
  · intro h
    simp [markPrayer, h]
  · intro h1 h2 h3
    have hnc : ¬ t.endOf p < now := by omega
    have hne : ¬ now < t.timeOf p := by omega
    simp [markPrayer, hnc, hne, h3, markInsert, hnolog, POINTS_ON_TIME]
  · intro h1 h2
    have hnc : ¬ t.endOf p < now := by omega
    have hne : ¬ now < t.timeOf p := by omega
    have hnd : ¬ now ≤ t.timeOf p + window * 60 * 1000 := by omega
    simp [markPrayer, hnc, hne, hnd, markInsert, hnolog, POINTS_LATE]

/-- C1 witness: marking fajr at instant 5 with window start 0, end 10 and a
30-minute on-time window succeeds on time with 10 points. -/
theorem c1_witness :
    (markPrayer emptyStore 0 0 .fajr 5 30 (some cexTimings)).1 =
      .success .on_time 10 :=
  (c1_mark_window emptyStore 0 0 .fajr 5 30 cexTimings (by decide)
    (by decide)).2.2.1 (by decide) (by decide) (by decide)

/-- C7 counterexample: user 0 already has a fajr record for date 0, and the
call at instant 15 (past the window end 10) is rejected WindowClosed, not
AlreadyLogged as the claim states. -/
theorem c7_counterexample :
    (markPrayer cexStore 0 0 .fajr 15 30 (some cexTimings)).1 =
        .windowClosed ∧
    (markPrayer cexStore 0 0 .fajr 15 30 (some cexTimings)).1 ≠
        .alreadyLogged := by
  constructor
  · decide
  · decide

/-- C7 amended: when a record already exists for the triple, the call is
always rejected (AlreadyLogged, TooEarly or WindowClosed) and the store is
left unchanged; the rejection is AlreadyLogged exactly when now lies
within the window [start(p), end(p)] — the handler checks the time window
before the insert, so outside the window the time-window error wins. -/
theorem c7_already_logged (s : Store) (u d : Nat) (p : Prayer)
    (now window : Nat) (t : Timings) (hlog : logExists s u d p) :
    ((markPrayer s u d p now window (some t)).1 = .alreadyLogged ∨
      (markPrayer s u d p now window (some t)).1 = .tooEarly ∨
      (markPrayer s u d p now window (some t)).1 = .windowClosed) ∧
    (markPrayer s u d p now window (some t)).2 = s ∧
    ((markPrayer s u d p now window (some t)).1 = .alreadyLogged ↔
      (t.timeOf p ≤ now ∧ now ≤ t.endOf p)) := by
  refine ⟨?_, ?_, ?_⟩
  · by_cases hc : t.endOf p < now
    · simp [markPrayer, hc]
    · by_cases he : now < t.timeOf p
      · simp [markPrayer, hc, he]
      · by_cases hd : now ≤ t.timeOf p + window * 60 * 1000 <;>
          simp [markPrayer, hc, he, hd, markInsert, hlog]
  · by_cases hc : t.endOf p < now
    · simp [markPrayer, hc]
    · by_cases he : now < t.timeOf p
      · simp [markPrayer, hc, he]
      · by_cases hd : now ≤ t.timeOf p + window * 60 * 1000 <;>
          simp [markPrayer, hc, he, hd, markInsert, hlog]
  · by_cases hc : t.endOf p < now
    · have hres : (markPrayer s u d p now window (some t)).1 =
          .windowClosed := by
        simp [markPrayer, hc]
      rw [hres]
      constructor
      · intro hcon
        exact absurd hcon (by decide)
      · intro hrange
        exact absurd hrange.2 (by omega)
    · by_cases he : now < t.timeOf p
      · have hres : (markPrayer s u d p now window (some t)).1 =
            .tooEarly := by
          simp [markPrayer, hc, he]
        rw [hres]
        constructor
        · intro hcon
          exact absurd hcon (by decide)
        · intro hrange
          exact absurd hrange.1 (by omega)
      · have hres : (markPrayer s u d p now window (some t)).1 =
            .alreadyLogged := by
          by_cases hd : now ≤ t.timeOf p + window * 60 * 1000 <;>
            simp [markPrayer, hc, he, hd, markInsert, hlog]
        rw [hres]
        exact ⟨fun _ => ⟨by omega, by omega⟩, fun _ => rfl⟩

/-- C7 amended witness: with the record present and now 5 inside the fajr
window, the call is rejected and the store is unchanged. -/
theorem c7_amended_witness :
    (markPrayer cexStore 0 0 .fajr 5 30 (some cexTimings)).1 =
        .alreadyLogged ∧
    (markPrayer cexStore 0 0 .fajr 5 30 (some cexTimings)).2 = cexStore := by
  have h := c7_already_logged cexStore 0 0 .fajr 5 30 cexTimings (by decide)
  exact ⟨h.2.2.mpr ⟨by decide, by decide⟩, h.2.1⟩

/-- C8: when a fasting record already exists for (user, date), any further
set-fasting call is rejected AlreadySet and the store — the existing
record and the ledger — is returned unchanged. -/
theorem c8_already_set (s : Store) (u d : Nat) (b : Bool) (log : FastingLog)
    (h : findFastingLog s u d = some log) :
    setFastingStatus s u d b = (.alreadySet, s) := by
  simp [setFastingStatus, h]


/-- C8 witness: a second set-fasting call for user 0, date 0 is rejected
AlreadySet with the store unchanged. -/
theorem c8_witness :
    setFastingStatus c8Store 0 0 true = (.alreadySet, c8Store) :=
  c8_already_set c8Store 0 0 true ⟨0, 0, true, false, none, 20⟩ (by decide)

/-- Inserting a ledger row never touches the prayer-log table. -/
theorem insertLedger_prayerLogs (s : Store) (e : LedgerEntry) :
    (insertLedger s e).prayerLogs = s.prayerLogs := by
  unfold insertLedger applyTotalsTrigger
  split <;> rfl

/-- Inserting a ledger row never touches the fasting-log table. -/
theorem insertLedger_fastingLogs (s : Store) (e : LedgerEntry) :
    (insertLedger s e).fastingLogs = s.fastingLogs := by
  unfold insertLedger applyTotalsTrigger
  split <;> rfl

/-- The ledger after an insert: unchanged on a duplicate key, appended
otherwise. -/
theorem insertLedger_ledger (s : Store) (e : LedgerEntry) :
    (insertLedger s e).ledger =
      if keyExists s e.idempotencyKey then s.ledger else s.ledger ++ [e] := by
  unfold insertLedger
  split <;> simp_all

/-- The set-fasting-status handler on a fresh (user, date) with
isFasting = true. -/
theorem setFastingStatus_true_eq (s : Store) (u d : Nat)
    (h : findFastingLog s u d = none) :
    setFastingStatus s u d true =
      (.success FASTING_BONUS_POINTS,
        insertLedger
          { s with fastingLogs := s.fastingLogs ++
              [⟨u, d, true, false, none, FASTING_BONUS_POINTS⟩] }
          ⟨u, .fasting_bonus, FASTING_BONUS_POINTS, d, none,
            fastingIdemKey u d .fasting_bonus⟩) := by
  unfold setFastingStatus
  rw [h]
  rfl

/-- The set-fasting-status handler on a fresh (user, date) with
isFasting = false: no ledger entry, zero points. -/
theorem setFastingStatus_false_eq (s : Store) (u d : Nat)
    (h : findFastingLog s u d = none) :
    setFastingStatus s u d false =
      (.success 0,
        { s with fastingLogs := s.fastingLogs ++
            [⟨u, d, false, false, none, 0⟩] }) := by
  unfold setFastingStatus
  rw [h]
  rfl

/-- The break-fast handler on an unbroken declared fast. -/
theorem breakFast_eq_of_found (s : Store) (u d now : Nat) (log : FastingLog)
    (hf : findFastingLog s u d = some log) (hif : log.isFasting = true)
    (hbr : log.broken = false) :
    breakFast s u d now =
      (.success FASTING_REVOKE_POINTS,
        insertLedger
          { s with fastingLogs := s.fastingLogs.map fun l =>
              if l.user = u ∧ l.date = d then
                { l with broken := true, brokenAt := some now, pointsAwarded := 0 }
              else l }
          ⟨u, .fasting_revoke, FASTING_REVOKE_POINTS, d, none,
            fastingIdemKey u d .fasting_revoke⟩) := by
  unfold breakFast
  rw [hf]
  simp [hif, hbr]

/-- C4: starting from a store with no fasting log and no fasting ledger
rows for (user, date), a successful SetFasting(true) followed by a
successful BreakFast awards +20 then -20 (the revoke delta is the negative
of the bonus), the day's fasting ledger activity sums to zero, and the
record afterwards has broken = true, broken_at = now, points_awarded = 0. -/
theorem c4_fast_net_zero (s : Store) (u d now : Nat)
    (hlog : findFastingLog s u d = none)
    (hact : ∀ e ∈ s.ledger, ¬ (e.user = u ∧ e.date = d ∧
      (e.action = .fasting_bonus ∨ e.action = .fasting_revoke)))
    (hkb : ¬ keyExists s (fastingIdemKey u d .fasting_bonus))
    (hkr : ¬ keyExists s (fastingIdemKey u d .fasting_revoke)) :
    (setFastingStatus s u d true).1 = .success 20 ∧
    (breakFast (setFastingStatus s u d true).2 u d now).1 = .success (-20) ∧
    fastingActivitySum
      (breakFast (setFastingStatus s u d true).2 u d now).2.ledger u d = 0 ∧
    findFastingLog (breakFast (setFastingStatus s u d true).2 u d now).2 u d =
      some ⟨u, d, true, true, some now, 0⟩ := by
  have hnomatch : ∀ l ∈ s.fastingLogs, ¬ (l.user = u ∧ l.date = d) := by
    intro l hl
    simpa using List.find?_eq_none.1 hlog l hl
  have heq1 := setFastingStatus_true_eq s u d hlog
  have hF1 : (setFastingStatus s u d true).2.fastingLogs =
      s.fastingLogs ++ [⟨u, d, true, false, none, FASTING_BONUS_POINTS⟩] := by
    simp only [heq1, insertLedger_fastingLogs]
  have hL1 : (setFastingStatus s u d true).2.ledger = s.ledger ++
      [⟨u, .fasting_bonus, FASTING_BONUS_POINTS, d, none,
        fastingIdemKey u d .fasting_bonus⟩] := by
    simp only [heq1, insertLedger_ledger]
    rw [if_neg]
    simpa [keyExists] using hkb
  have hF2 : findFastingLog (setFastingStatus s u d true).2 u d =
      some ⟨u, d, true, false, none, FASTING_BONUS_POINTS⟩ := by
    unfold findFastingLog at hlog ⊢
    rw [hF1, List.find?_append, hlog]
    simp
  have heq2 := breakFast_eq_of_found (setFastingStatus s u d true).2 u d now
    ⟨u, d, true, false, none, FASTING_BONUS_POINTS⟩ hF2 rfl rfl
  have hsmap : ((setFastingStatus s u d true).2.fastingLogs.map fun l =>
      if l.user = u ∧ l.date = d then
        { l with broken := true, brokenAt := some now, pointsAwarded := 0 }
      else l) =
      s.fastingLogs ++ [⟨u, d, true, true, some now, 0⟩] := by
    rw [hF1, List.map_append]
    have h1 : (s.fastingLogs.map fun l =>
        if l.user = u ∧ l.date = d then
          { l with broken := true, brokenAt := some now, pointsAwarded := 0 }
        else l) = s.fastingLogs := by
      have h2 : (s.fastingLogs.map fun l =>
          if l.user = u ∧ l.date = d then
            { l with broken := true, brokenAt := some now, pointsAwarded := 0 }
          else l) = s.fastingLogs.map fun a => a :=
        List.map_congr_left fun a ha => by rw [if_neg (hnomatch a ha)]
      rw [h2, List.map_id']
    rw [h1]
    simp
  have hFfin :
      (breakFast (setFastingStatus s u d true).2 u d now).2.fastingLogs =
        s.fastingLogs ++ [⟨u, d, true, true, some now, 0⟩] := by
    simp only [heq2, insertLedger_fastingLogs]
    exact hsmap
  have hLfin : (breakFast (setFastingStatus s u d true).2 u d now).2.ledger =
      s.ledger ++
      [⟨u, .fasting_bonus, FASTING_BONUS_POINTS, d, none,
        fastingIdemKey u d .fasting_bonus⟩,
       ⟨u, .fasting_revoke, FASTING_REVOKE_POINTS, d, none,
        fastingIdemKey u d .fasting_revoke⟩] := by
    simp only [heq2, insertLedger_ledger]
    rw [if_neg]
    · rw [show ({ (setFastingStatus s u d true).2 with
          fastingLogs := (setFastingStatus s u d true).2.fastingLogs.map fun l =>
            if l.user = u ∧ l.date = d then
              { l with broken := true, brokenAt := some now, pointsAwarded := 0 }
            else l } : Store).ledger = (setFastingStatus s u d true).2.ledger
          from rfl]
      rw [hL1, List.append_assoc]
      rfl
    · simp only [keyExists]
      rw [show ({ (setFastingStatus s u d true).2 with
          fastingLogs := (setFastingStatus s u d true).2.fastingLogs.map fun l =>
            if l.user = u ∧ l.date = d then
              { l with broken := true, brokenAt := some now, pointsAwarded := 0 }
            else l } : Store).ledger = (setFastingStatus s u d true).2.ledger
          from rfl]
      rw [hL1]
      rintro ⟨e, he, hek⟩
      rcases List.mem_append.1 he with h | h
      · exact hkr ⟨e, h, hek⟩
      · simp only [List.mem_singleton] at h
        subst h
        simp [fastingIdemKey, actionName] at hek
  refine ⟨?_, ?_, ?_, ?_⟩
  · simp [heq1, FASTING_BONUS_POINTS]
  · simp [heq2, FASTING_REVOKE_POINTS]
  · unfold fastingActivitySum
    rw [hLfin, List.filter_append]
    have hnil : (s.ledger.filter fun e => decide (e.user = u ∧ e.date = d ∧
        (e.action = .fasting_bonus ∨ e.action = .fasting_revoke))) = [] := by
      rw [List.filter_eq_nil_iff]
      intro e he
      simpa using hact e he
    rw [hnil]
    simp [FASTING_BONUS_POINTS, FASTING_REVOKE_POINTS]
  · unfold findFastingLog at hlog ⊢
    rw [hFfin, List.find?_append, hlog]
    simp

/-- C4 witness: from the empty store, SetFasting(true) then BreakFast at
instant 7 nets zero fasting points and leaves a broken record. -/
theorem c4_witness :
    (setFastingStatus emptyStore 0 0 true).1 = .success 20 ∧
    (breakFast (setFastingStatus emptyStore 0 0 true).2 0 0 7).1 =
      .success (-20) ∧
    fastingActivitySum
      (breakFast (setFastingStatus emptyStore 0 0 true).2 0 0 7).2.ledger 0 0
      = 0 ∧
    findFastingLog (breakFast (setFastingStatus emptyStore 0 0 true).2 0 0 7).2
      0 0 = some ⟨0, 0, true, true, some 7, 0⟩ :=
  c4_fast_net_zero emptyStore 0 0 7 (by decide) (by decide) (by decide)
    (by decide)

/-- In a list whose keys are pairwise distinct, two members with the same
key are the same member. -/
theorem pairwise_key_unique {α κ : Type} (key : α → κ) (l : List α)
    (h : l.Pairwise fun a b => key a ≠ key b) (x y : α)
    (hx : x ∈ l) (hy : y ∈ l) (hk : key x = key y) : x = y := by
  induction l with
  | nil => cases hx
  | cons a rest ih =>
    have hph := List.pairwise_cons.1 h
    rcases List.mem_cons.1 hx with rfl | hx2
    · rcases List.mem_cons.1 hy with rfl | hy2
      · rfl
      · exact absurd hk (hph.1 y hy2)
    · rcases List.mem_cons.1 hy with rfl | hy2
      · exact absurd hk.symm (hph.1 x hx2)
      · exact ih hph.2 hx2 hy2

/-- Marking a prayer never touches the fasting-log table. -/
theorem markPrayer_fastingLogs (s : Store) (u d : Nat) (p : Prayer)
    (now window : Nat) (timings : Option Timings) :
    (markPrayer s u d p now window timings).2.fastingLogs = s.fastingLogs := by
  unfold markPrayer markInsert
  cases timings with
  | none => rfl
  | some t =>
    simp only
    split
    · rfl
    · split
      · rfl
      · split <;> split <;> simp [insertLedger_fastingLogs]

/-- The sweep never touches the fasting-log table. -/
theorem sweepFold_fastingLogs (today now : Nat)
    (items : List (TimingsRow × Prayer)) (acc : Store × SweepCounts) :
    ((items.foldl (sweepItem today now) acc).1).fastingLogs =
      acc.1.fastingLogs := by
  induction items generalizing acc with
  | nil => rfl
  | cons it rest ih =>
    rw [List.foldl_cons, ih]
    unfold sweepItem
    split
    · rfl
    · split
      · rfl
      · simp [insertLedger_fastingLogs]

/-- The fasting well-formedness predicate only reads the fasting table. -/
theorem fastingWF_of_eq (s s' : Store) (h : s'.fastingLogs = s.fastingLogs)
    (hw : FastingWF s) : FastingWF s' := by
  unfold FastingWF at hw ⊢
  rw [h]
  exact hw

/-- Every operation preserves the fasting well-formedness invariant. -/
theorem fastingWF_applyOp (s : Store) (op : Op) (h : FastingWF s) :
    FastingWF (applyOp s op) := by
  cases op with
  | markOp u d p now w t =>
    exact fastingWF_of_eq s _ (markPrayer_fastingLogs s u d p now w t) h
  | sweepOp rows td n =>
    exact fastingWF_of_eq s _ (sweepFold_fastingLogs td n (sweepItems rows) _) h
  | setFastingOp u d b =>
    show FastingWF (setFastingStatus s u d b).2
    cases hf : findFastingLog s u d with
    | some log =>
      have heq : setFastingStatus s u d b = (.alreadySet, s) := by
        unfold setFastingStatus
        rw [hf]
      rw [heq]
      exact h
    | none =>
      have hnomatch : ∀ l ∈ s.fastingLogs, ¬ (l.user = u ∧ l.date = d) := by
        intro l hl
        simpa using List.find?_eq_none.1 hf l hl
      have hbase : ∀ (bb : Bool) (pts : Int),
          FastingInv ⟨u, d, bb, false, none, pts⟩ →
          FastingWF { s with fastingLogs := s.fastingLogs ++
            [⟨u, d, bb, false, none, pts⟩] } := by
        intro bb pts hinv
        constructor
        · intro l hl
          rcases List.mem_append.1 hl with hl2 | hl2
          · exact h.1 l hl2
          · simp only [List.mem_singleton] at hl2
            subst hl2
            exact hinv
        · rw [List.pairwise_append]
          refine ⟨h.2, by simp, ?_⟩
          intro a ha bb2 hb
          simp only [List.mem_singleton] at hb
          subst hb
          intro hc
          exact hnomatch a ha (by simpa using hc)
      cases b with
      | true =>
        rw [setFastingStatus_true_eq s u d hf]
        exact fastingWF_of_eq _ _ (insertLedger_fastingLogs _ _)
          (hbase true FASTING_BONUS_POINTS
            (by simp [FastingInv, FASTING_BONUS_POINTS]))
      | false =>
        rw [setFastingStatus_false_eq s u d hf]
        exact hbase false 0 (by simp [FastingInv])
  | breakFastOp u d n =>
    show FastingWF (breakFast s u d n).2
    unfold breakFast
    cases hf : findFastingLog s u d with
    | none => exact h
    | some log =>
      simp only
      split
      · exact h
      · split
        · exact h
        · rename_i hnotf hbrk
          have hifa : log.isFasting = true := by
            cases hlg : log.isFasting
            · rw [hlg] at hnotf
              simp at hnotf
            · rfl
          have hbrf : log.broken = false := by
            cases hlg : log.broken
            · rfl
            · rw [hlg] at hbrk
              simp at hbrk
          have hmem : log ∈ s.fastingLogs := List.mem_of_find?_eq_some hf
          have hkey : log.user = u ∧ log.date = d := by
            simpa using List.find?_some hf
          refine fastingWF_of_eq _ _ (insertLedger_fastingLogs _ _) ?_
          constructor
          · intro l hl
            rcases List.mem_map.1 hl with ⟨l0, hl0, rfl⟩
            by_cases hc : l0.user = u ∧ l0.date = d
            · have : l0 = log := by
                apply pairwise_key_unique (fun x => (x.user, x.date))
                  s.fastingLogs h.2 l0 log hl0 hmem
                simp [hc.1, hc.2, hkey.1, hkey.2]
              subst this
              rw [if_pos hc]
              refine ⟨by simp, fun _ => hifa⟩
            · rw [if_neg hc]
              exact h.1 l0 hl0
          · refine List.Pairwise.map _ ?_ h.2
            intro a bb hab
            by_cases ha : a.user = u ∧ a.date = d
            · by_cases hb2 : bb.user = u ∧ bb.date = d
              · exact absurd (by rw [ha.1, ha.2, hb2.1, hb2.2]) hab
              · simp only [if_pos ha, if_neg hb2]
                exact hab
            · simp only [if_neg ha]
              by_cases hb2 : bb.user = u ∧ bb.date = d
              · simp only [if_pos hb2]
                exact hab
              · simp only [if_neg hb2]
                exact hab

/-- A whole trace preserves the fasting well-formedness invariant. -/
theorem fastingWF_foldl (ops : List Op) (s : Store) (h : FastingWF s) :
    FastingWF (ops.foldl applyOp s) := by
  induction ops generalizing s with
  | nil => exact h
  | cons op rest ih => exact ih _ (fastingWF_applyOp s op h)

/-- C10: every fasting record reachable by any sequence of operations from
the empty store satisfies the invariant: points_awarded is 20 exactly for
an unbroken declared fast and 0 otherwise, and a broken record was a
declared fast. -/
theorem c10_fasting_invariant (ops : List Op) (l : FastingLog)
    (h : l ∈ (runOps ops).fastingLogs) : FastingInv l := by
  have hwf : FastingWF (runOps ops) := by
    unfold runOps
    refine fastingWF_foldl ops emptyStore ?_
    constructor
    · intro l hl
      cases hl
    · simp [emptyStore]
  exact hwf.1 l h

/-- C10 witness: the record created by SetFasting(true) from the empty
store satisfies the invariant. -/
theorem c10_witness : FastingInv ⟨0, 0, true, false, none, 20⟩ :=
  c10_fasting_invariant [.setFastingOp 0 0 true] ⟨0, 0, true, false, none, 20⟩
    (by decide)

/-- Appending one ledger row adds its delta to the user's ledger sum. -/
theorem ledgerSum_append_single (l : List LedgerEntry) (e : LedgerEntry)
    (u : Nat) :
    ledgerSum (l ++ [e]) u =
      ledgerSum l u + (if e.user = u then e.points else 0) := by
  unfold ledgerSum
  rw [List.filter_append, List.map_append, List.sum_append]
  by_cases h : e.user = u <;> simp [h]

/-- Appending one ledger row adds its delta to the user's daily sum. -/
theorem ledgerDaySum_append_single (l : List LedgerEntry) (e : LedgerEntry)
    (u d : Nat) :
    ledgerDaySum (l ++ [e]) u d =
      ledgerDaySum l u d +
        (if e.user = u ∧ e.date = d then e.points else 0) := by
  unfold ledgerDaySum
  rw [List.filter_append, List.map_append, List.sum_append]
  by_cases h : e.user = u ∧ e.date = d <;> simp [h]

/-- The totals invariant only reads the ledger and the two caches. -/
theorem totalsAgree_of_eq (s s' : Store) (hl : s'.ledger = s.ledger)
    (ht : s'.totals = s.totals) (hd : s'.dailyTotals = s.dailyTotals)
    (h : TotalsAgree s) : TotalsAgree s' := by
  unfold TotalsAgree at h ⊢
  rw [hl, ht, hd]
  exact h

/-- A ledger insert (with its trigger) preserves the totals invariant:
a duplicate key changes nothing, and a fresh insert adds the same delta to
the caches and to the sums. -/
theorem totalsAgree_insertLedger (s : Store) (e : LedgerEntry)
    (h : TotalsAgree s) : TotalsAgree (insertLedger s e) := by
  unfold insertLedger
  split
  · exact h
  · constructor
    · intro u
      show (applyTotalsTrigger s e).totals u = ledgerSum (s.ledger ++ [e]) u
      unfold applyTotalsTrigger
      rw [ledgerSum_append_single]
      show (if u = e.user then s.totals u + e.points else s.totals u) =
        ledgerSum s.ledger u + (if e.user = u then e.points else 0)
      have hu := h.1 u
      by_cases hc : u = e.user
      · rw [if_pos hc, if_pos (by rw [hc])]
        omega
      · rw [if_neg hc, if_neg (fun hh => hc hh.symm)]
        omega
    · intro u d
      show (applyTotalsTrigger s e).dailyTotals u d =
        ledgerDaySum (s.ledger ++ [e]) u d
      unfold applyTotalsTrigger
      rw [ledgerDaySum_append_single]
      show (if u = e.user ∧ d = e.date then s.dailyTotals u d + e.points
          else s.dailyTotals u d) =
        ledgerDaySum s.ledger u d +
          (if e.user = u ∧ e.date = d then e.points else 0)
      have hu := h.2 u d
      by_cases hc : u = e.user ∧ d = e.date
      · rw [if_pos hc, if_pos ⟨hc.1.symm, hc.2.symm⟩]
        omega
      · rw [if_neg hc, if_neg (fun hh => hc ⟨hh.1.symm, hh.2.symm⟩)]
        omega

/-- The prayer-mark insert preserves the totals invariant. -/
theorem totalsAgree_markInsert (s : Store) (u d : Nat) (p : Prayer)
    (now pTime pEnd : Nat) (st : PrayerStatus) (pts : Int)
    (a : LedgerAction) (h : TotalsAgree s) :
    TotalsAgree (markInsert s u d p now pTime pEnd st pts a).2 := by
  unfold markInsert
  split
  · exact h
  · exact totalsAgree_insertLedger _ _ (totalsAgree_of_eq s _ rfl rfl rfl h)

/-- One sweep iteration preserves the totals invariant. -/
theorem totalsAgree_sweepItem (today now : Nat) (acc : Store × SweepCounts)
    (it : TimingsRow × Prayer) (h : TotalsAgree acc.1) :
    TotalsAgree (sweepItem today now acc it).1 := by
  unfold sweepItem
  split
  · exact h
  · split
    · exact h
    · exact totalsAgree_insertLedger _ _
        (totalsAgree_of_eq acc.1 _ rfl rfl rfl h)

/-- A whole sweep preserves the totals invariant. -/
theorem totalsAgree_sweepFold (today now : Nat)
    (items : List (TimingsRow × Prayer)) (acc : Store × SweepCounts)
    (h : TotalsAgree acc.1) :
    TotalsAgree ((items.foldl (sweepItem today now) acc).1) := by
  induction items generalizing acc with
  | nil => exact h
  | cons it rest ih =>
    rw [List.foldl_cons]
    exact ih _ (totalsAgree_sweepItem today now acc it h)

/-- Every operation preserves the totals invariant. -/
theorem totalsAgree_applyOp (s : Store) (op : Op) (h : TotalsAgree s) :
    TotalsAgree (applyOp s op) := by
  cases op with
  | markOp u d p now w timings =>
    show TotalsAgree (markPrayer s u d p now w timings).2
    unfold markPrayer
    cases timings with
    | none => exact h
    | some t =>
      simp only
      split
      · exact h
      · split
        · exact h
        · split <;> exact totalsAgree_markInsert _ _ _ _ _ _ _ _ _ _ h
  | setFastingOp u d b =>
    show TotalsAgree (setFastingStatus s u d b).2
    unfold setFastingStatus
    cases hf : findFastingLog s u d with
    | some log => exact h
    | none =>
      simp only
      split
      · exact totalsAgree_insertLedger _ _ (totalsAgree_of_eq s _ rfl rfl rfl h)
      · exact totalsAgree_of_eq s _ rfl rfl rfl h
  | breakFastOp u d n =>
    show TotalsAgree (breakFast s u d n).2
    unfold breakFast
    cases hf : findFastingLog s u d with
    | none => exact h
    | some log =>
      simp only
      split
      · exact h
      · split
        · exact h
        · exact totalsAgree_insertLedger _ _
            (totalsAgree_of_eq s _ rfl rfl rfl h)
  | sweepOp rows td n =>
    exact totalsAgree_sweepFold td n (sweepItems rows) _ h

/-- A whole trace preserves the totals invariant. -/
theorem totalsAgree_foldl (ops : List Op) (s : Store) (h : TotalsAgree s) :
    TotalsAgree (ops.foldl applyOp s) := by
  induction ops generalizing s with
  | nil => exact h
  | cons op rest ih => exact ih _ (totalsAgree_applyOp s op h)

/-- C3: after any sequence of operations from the empty store, each user's
all-time total equals the sum of that user's ledger deltas, and each
per-day total equals the sum of that user's deltas for the date: the
caches are reconstructable from the ledger. -/
theorem c3_totals_reconstructable (ops : List Op) (u : Nat) :
    (runOps ops).totals u = ledgerSum (runOps ops).ledger u ∧
    ∀ d, (runOps ops).dailyTotals u d = ledgerDaySum (runOps ops).ledger u d := by
  have hta : TotalsAgree (runOps ops) := by
    unfold runOps
    refine totalsAgree_foldl ops emptyStore ?_
    constructor
    · intro v
      simp [emptyStore, ledgerSum]
    · intro v dd
      simp [emptyStore, ledgerDaySum]
  exact ⟨hta.1 u, fun d => hta.2 u d⟩

/-- Existence in a list extended by one element. -/
theorem exists_mem_append_single {α : Type} (l : List α) (a : α) (P : α → Prop) :
    (∃ x ∈ l ++ [a], P x) ↔ ((∃ x ∈ l, P x) ∨ P a) := by
  constructor
  · rintro ⟨x, hx, hp⟩
    rcases List.mem_append.1 hx with h1 | h1
    · exact Or.inl ⟨x, h1, hp⟩
    · simp only [List.mem_singleton] at h1
      subst h1
      exact Or.inr hp
  · rintro (⟨x, hx, hp⟩ | hp)
    · exact ⟨x, List.mem_append_left _ hx, hp⟩
    · exact ⟨a, List.mem_append_right _ (List.mem_singleton_self _), hp⟩

/-- Missed-prayer idempotency keys for the same date collide only on the
same (user, prayer). -/
theorem missedKey_inj (u1 u2 d : Nat) (p1 p2 : Prayer)
    (h : prayerIdemKey u1 d p1 .missed_prayer =
      prayerIdemKey u2 d p2 .missed_prayer) : u1 = u2 ∧ p1 = p2 := by
  unfold prayerIdemKey at h
  have h1 : u1 = u2 := congrArg IdemKey.user h
  have h2 : prayerName p1 ++ ":" ++ actionName .missed_prayer =
      prayerName p2 ++ ":" ++ actionName .missed_prayer :=
    congrArg IdemKey.tag h
  refine ⟨h1, ?_⟩
  revert h2
  cases p1 <;> cases p2 <;> decide

/-- A sweep iteration whose window is still open changes nothing. -/
theorem sweepItem_skip_open (today now : Nat) (s0 : Store) (c0 : SweepCounts)
    (it : TimingsRow × Prayer) (h : now ≤ it.1.timings.endOf it.2) :
    sweepItem today now (s0, c0) it = (s0, c0) := by
  simp only [sweepItem]
  rw [if_pos h]

/-- A sweep iteration that finds an existing record changes nothing. -/
theorem sweepItem_skip_logged (today now : Nat) (s0 : Store)
    (c0 : SweepCounts) (it : TimingsRow × Prayer)
    (h1 : ¬ now ≤ it.1.timings.endOf it.2)
    (h2 : logExists s0 it.1.user today it.2) :
    sweepItem today now (s0, c0) it = (s0, c0) := by
  simp only [sweepItem]
  rw [if_neg h1, if_pos h2]

/-- A sweep iteration past a closed window with no record backfills the
missed log and its ledger entry and counts one missed prayer. -/
theorem sweepItem_insert (today now : Nat) (s0 : Store) (c0 : SweepCounts)
    (it : TimingsRow × Prayer) (h1 : ¬ now ≤ it.1.timings.endOf it.2)
    (h2 : ¬ logExists s0 it.1.user today it.2) :
    sweepItem today now (s0, c0) it =
      (insertLedger
        { s0 with prayerLogs := s0.prayerLogs ++
            [missedLog it.1.user today it.2 it.1.timings] }
        (missedEntry it.1.user today it.2),
       ⟨c0.processed + 1, c0.missed + 1⟩) := by
  simp only [sweepItem]
  rw [if_neg h1, if_neg h2]

/-- The sweep loop over any item list whose triples are pairwise distinct:
relative to a reference store s that agrees with the accumulator on record
existence for the listed triples, the loop appends exactly the missed logs
and missed ledger entries of the qualifying items and counts them. -/
theorem sweepFold_spec (s : Store) (today now : Nat)
    (items : List (TimingsRow × Prayer)) :
    ∀ (s0 : Store) (c0 : SweepCounts),
    items.Pairwise (fun a b => itemTriple a ≠ itemTriple b) →
    (∀ it ∈ items, logExists s0 it.1.user today it.2 ↔
      logExists s it.1.user today it.2) →
    (∀ it ∈ items, qualifies s today now it →
      ¬ keyExists s0 (prayerIdemKey it.1.user today it.2 .missed_prayer)) →
    (items.foldl (sweepItem today now) (s0, c0)).1.prayerLogs =
        s0.prayerLogs ++
          ((items.filter fun it => decide (qualifies s today now it)).map
            fun it => missedLog it.1.user today it.2 it.1.timings) ∧
    (items.foldl (sweepItem today now) (s0, c0)).1.ledger =
        s0.ledger ++
          ((items.filter fun it => decide (qualifies s today now it)).map
            fun it => missedEntry it.1.user today it.2) ∧
    (items.foldl (sweepItem today now) (s0, c0)).1.fastingLogs =
        s0.fastingLogs ∧
    (items.foldl (sweepItem today now) (s0, c0)).2.processed =
        c0.processed +
          (items.filter fun it => decide (qualifies s today now it)).length ∧
    (items.foldl (sweepItem today now) (s0, c0)).2.missed =
        c0.missed +
          (items.filter fun it => decide (qualifies s today now it)).length := by
  induction items with
  | nil =>
    intro s0 c0 _ _ _
    simp
  | cons it rest ih =>
    intro s0 c0 hpw hlex hkeys
    have hpwc := List.pairwise_cons.1 hpw
    rw [List.foldl_cons]
    by_cases h1 : now ≤ it.1.timings.endOf it.2
    · have hq : ¬ qualifies s today now it := fun hq => absurd hq.1 (by omega)
      rw [sweepItem_skip_open today now s0 c0 it h1, List.filter_cons,
        if_neg (by simpa using hq)]
      exact ih s0 c0 hpwc.2
        (fun jt hjt => hlex jt (List.mem_cons_of_mem _ hjt))
        (fun jt hjt => hkeys jt (List.mem_cons_of_mem _ hjt))
    · by_cases h2 : logExists s0 it.1.user today it.2
      · have hq : ¬ qualifies s today now it := fun hq =>
          hq.2 ((hlex it (List.mem_cons_self _ _)).1 h2)
        rw [sweepItem_skip_logged today now s0 c0 it h1 h2, List.filter_cons,
          if_neg (by simpa using hq)]
        exact ih s0 c0 hpwc.2
          (fun jt hjt => hlex jt (List.mem_cons_of_mem _ hjt))
          (fun jt hjt => hkeys jt (List.mem_cons_of_mem _ hjt))
      · have hq : qualifies s today now it :=
          ⟨by omega, fun hx => h2 ((hlex it (List.mem_cons_self _ _)).2 hx)⟩
        have hkey0 : ¬ keyExists s0
            (prayerIdemKey it.1.user today it.2 .missed_prayer) :=
          hkeys it (List.mem_cons_self _ _) hq
        rw [sweepItem_insert today now s0 c0 it h1 h2, List.filter_cons,
          if_pos (by simpa using hq)]
        have hs2logs : (insertLedger
            { s0 with prayerLogs := s0.prayerLogs ++
                [missedLog it.1.user today it.2 it.1.timings] }
            (missedEntry it.1.user today it.2)).prayerLogs =
            s0.prayerLogs ++ [missedLog it.1.user today it.2 it.1.timings] :=
          insertLedger_prayerLogs _ _
        have hs2led : (insertLedger
            { s0 with prayerLogs := s0.prayerLogs ++
                [missedLog it.1.user today it.2 it.1.timings] }
            (missedEntry it.1.user today it.2)).ledger =
            s0.ledger ++ [missedEntry it.1.user today it.2] := by
          rw [insertLedger_ledger, if_neg]
          exact hkey0
        have hs2fast : (insertLedger
            { s0 with prayerLogs := s0.prayerLogs ++
                [missedLog it.1.user today it.2 it.1.timings] }
            (missedEntry it.1.user today it.2)).fastingLogs =
            s0.fastingLogs :=
          insertLedger_fastingLogs _ _
        have hlex2 : ∀ jt ∈ rest, logExists (insertLedger
            { s0 with prayerLogs := s0.prayerLogs ++
                [missedLog it.1.user today it.2 it.1.timings] }
            (missedEntry it.1.user today it.2)) jt.1.user today jt.2 ↔
            logExists s jt.1.user today jt.2 := by
          intro jt hjt
          have hne := hpwc.1 jt hjt
          have hbase := hlex jt (List.mem_cons_of_mem _ hjt)
          have hintro : logExists (insertLedger
              { s0 with prayerLogs := s0.prayerLogs ++
                  [missedLog it.1.user today it.2 it.1.timings] }
              (missedEntry it.1.user today it.2)) jt.1.user today jt.2 ↔
              (logExists s0 jt.1.user today jt.2 ∨
                (it.1.user = jt.1.user ∧ today = today ∧ it.2 = jt.2)) := by
            unfold logExists
            rw [hs2logs]
            exact exists_mem_append_single _ _ _
          rw [hintro]
          constructor
          · rintro (hx | hx)
            · exact hbase.1 hx
            · exact absurd (by
                unfold itemTriple
                rw [hx.1, hx.2.2]) hne
          · intro hx
            exact Or.inl (hbase.2 hx)
        have hkeys2 : ∀ jt ∈ rest, qualifies s today now jt →
            ¬ keyExists (insertLedger
              { s0 with prayerLogs := s0.prayerLogs ++
                  [missedLog it.1.user today it.2 it.1.timings] }
              (missedEntry it.1.user today it.2))
              (prayerIdemKey jt.1.user today jt.2 .missed_prayer) := by
          intro jt hjt hqj
          have hk0 := hkeys jt (List.mem_cons_of_mem _ hjt) hqj
          have hintro : keyExists (insertLedger
              { s0 with prayerLogs := s0.prayerLogs ++
                  [missedLog it.1.user today it.2 it.1.timings] }
              (missedEntry it.1.user today it.2))
              (prayerIdemKey jt.1.user today jt.2 .missed_prayer) ↔
              (keyExists s0 (prayerIdemKey jt.1.user today jt.2 .missed_prayer) ∨
                (missedEntry it.1.user today it.2).idempotencyKey =
                  prayerIdemKey jt.1.user today jt.2 .missed_prayer) := by
            unfold keyExists
            rw [hs2led]
            exact exists_mem_append_single _ _ _
          rw [hintro]
          rintro (hx | hx)
          · exact hk0 hx
          · have hinj := missedKey_inj it.1.user jt.1.user today it.2 jt.2 hx
            exact hpwc.1 jt hjt (by
              unfold itemTriple
              rw [hinj.1, hinj.2])
        obtain ⟨ih1, ih2, ih3, ih4, ih5⟩ := ih _ _ hpwc.2 hlex2 hkeys2
        refine ⟨?_, ?_, ?_, ?_, ?_⟩
        · rw [ih1, hs2logs, List.map_cons, List.append_assoc, List.singleton_append]
        · rw [ih2, hs2led, List.map_cons, List.append_assoc, List.singleton_append]
        · rw [ih3, hs2fast]
        · rw [ih4, List.length_cons]
          show c0.processed + 1 + _ = _
          omega
        · rw [ih5, List.length_cons]
          show c0.missed + 1 + _ = _
          omega

/-- Membership in the flattened sweep iteration list. -/
theorem mem_sweepItems (rows : List TimingsRow) (it : TimingsRow × Prayer) :
    it ∈ sweepItems rows ↔ it.1 ∈ rows ∧ it.2 ∈ prayersList := by
  unfold sweepItems
  rw [List.mem_flatMap]
  constructor
  · rintro ⟨r, hr, hmem⟩
    rcases List.mem_map.1 hmem with ⟨p, hp, rfl⟩
    exact ⟨hr, hp⟩
  · intro ⟨h1, h2⟩
    exact ⟨it.1, h1, List.mem_map.2 ⟨it.2, h2, rfl⟩⟩

/-- Distinct users per timings row (the `uq_prayer_day_timings` constraint)
give pairwise-distinct (user, prayer) sweep iterations. -/
theorem sweepItems_pairwise (rows : List TimingsRow)
    (h : rows.Pairwise fun a b => a.user ≠ b.user) :
    (sweepItems rows).Pairwise fun a b => itemTriple a ≠ itemTriple b := by
  induction rows with
  | nil => simp [sweepItems]
  | cons r rs ih =>
    have hc := List.pairwise_cons.1 h
    have hsplit : sweepItems (r :: rs) =
        (prayersList.map fun p => (r, p)) ++ sweepItems rs := rfl
    rw [hsplit, List.pairwise_append]
    refine ⟨?_, ih hc.2, ?_⟩
    · have hpl : prayersList.Pairwise fun a b => a ≠ b := by decide
      refine List.Pairwise.map _ ?_ hpl
      intro a b hab hcon
      exact hab (congrArg Prod.snd hcon)
    · intro x hx y hy
      rcases List.mem_map.1 hx with ⟨p, _, rfl⟩
      have hy1 : y.1 ∈ rs := ((mem_sweepItems rs y).1 hy).1
      intro hcon
      exact hc.1 y.1 hy1 (congrArg Prod.fst hcon)

/-- C5: a sweep run at instant now appends, for exactly the qualifying
(user, today, prayer) iterations — window closed (`now > end(p)`) and no
existing record — a missed PrayerRecord (`status = missed`,
`marked_at = null`, `points_awarded = 0`, the fields of `missedLog`) and a
ledger entry (`action = missed_prayer`, `points = 0`, key
`user:date:prayer:missed_prayer`, the fields of `missedEntry`), counts
them, and leaves every other record untouched. -/
theorem c5_sweep_inserts (s : Store) (rows : List TimingsRow)
    (today now : Nat)
    (hrows : rows.Pairwise fun a b => a.user ≠ b.user)
    (hkeys : ∀ it ∈ sweepItems rows, qualifies s today now it →
      ¬ keyExists s (prayerIdemKey it.1.user today it.2 .missed_prayer)) :
    (missedPrayerJob s rows today now).1.prayerLogs =
      s.prayerLogs ++ ((missedFor s rows today now).map
        fun it => missedLog it.1.user today it.2 it.1.timings) ∧
    (missedPrayerJob s rows today now).1.ledger =
      s.ledger ++ ((missedFor s rows today now).map
        fun it => missedEntry it.1.user today it.2) ∧
    (missedPrayerJob s rows today now).2.missed =
      (missedFor s rows today now).length ∧
    (missedPrayerJob s rows today now).2.processed =
      (missedFor s rows today now).length := by
  have hsp := sweepFold_spec s today now (sweepItems rows) s ⟨0, 0⟩
    (sweepItems_pairwise rows hrows) (fun it _ => Iff.rfl) hkeys
  refine ⟨hsp.1, hsp.2.1, ?_, ?_⟩
  · rw [show (missedPrayerJob s rows today now).2.missed =
      (⟨0, 0⟩ : SweepCounts).missed + (missedFor s rows today now).length
      from hsp.2.2.2.2]
    show 0 + _ = _
    omega
  · rw [show (missedPrayerJob s rows today now).2.processed =
      (⟨0, 0⟩ : SweepCounts).processed + (missedFor s rows today now).length
      from hsp.2.2.2.1]
    show 0 + _ = _
    omega

/-- C5 witness: one user with the example timings, swept at instant 15:
only fajr (window end 10) is backfilled. -/
theorem c5_witness :
    (missedPrayerJob emptyStore [⟨0, cexTimings⟩] 0 15).1.prayerLogs =
      emptyStore.prayerLogs ++
        ((missedFor emptyStore [⟨0, cexTimings⟩] 0 15).map
          fun it => missedLog it.1.user 0 it.2 it.1.timings) ∧
    (missedPrayerJob emptyStore [⟨0, cexTimings⟩] 0 15).1.ledger =
      emptyStore.ledger ++
        ((missedFor emptyStore [⟨0, cexTimings⟩] 0 15).map
          fun it => missedEntry it.1.user 0 it.2) ∧
    (missedPrayerJob emptyStore [⟨0, cexTimings⟩] 0 15).2.missed =
      (missedFor emptyStore [⟨0, cexTimings⟩] 0 15).length ∧
    (missedPrayerJob emptyStore [⟨0, cexTimings⟩] 0 15).2.processed =
      (missedFor emptyStore [⟨0, cexTimings⟩] 0 15).length :=
  c5_sweep_inserts emptyStore [⟨0, cexTimings⟩] 0 15 (by decide) (by decide)

/-- A sweep pass over items whose closed windows all have records changes
nothing. -/
theorem sweepFold_noop (today now : Nat)
    (items : List (TimingsRow × Prayer)) :
    ∀ (s0 : Store) (c0 : SweepCounts),
    (∀ it ∈ items, ¬ now ≤ it.1.timings.endOf it.2 →
      logExists s0 it.1.user today it.2) →
    items.foldl (sweepItem today now) (s0, c0) = (s0, c0) := by
  induction items with
  | nil =>
    intro s0 c0 _
    rfl
  | cons it rest ih =>
    intro s0 c0 h
    rw [List.foldl_cons]
    by_cases h1 : now ≤ it.1.timings.endOf it.2
    · rw [sweepItem_skip_open today now s0 c0 it h1]
      exact ih s0 c0 fun jt hjt => h jt (List.mem_cons_of_mem _ hjt)
    · rw [sweepItem_skip_logged today now s0 c0 it h1
        (h it (List.mem_cons_self _ _) h1)]
      exact ih s0 c0 fun jt hjt => h jt (List.mem_cons_of_mem _ hjt)

/-- C6 amended: re-running the sweep at the same instant with no new marks
in between yields missedCount = 0 and leaves the store unchanged.  (At a
strictly later instant this fails — see the counterexample — because
windows that closed in between are new missed prayers.) -/
theorem c6_idempotent_same_now (s : Store) (rows : List TimingsRow)
    (today now : Nat)
    (hrows : rows.Pairwise fun a b => a.user ≠ b.user)
    (hkeys : ∀ it ∈ sweepItems rows, qualifies s today now it →
      ¬ keyExists s (prayerIdemKey it.1.user today it.2 .missed_prayer)) :
    (missedPrayerJob (missedPrayerJob s rows today now).1
        rows today now).2.missed = 0 ∧
    (missedPrayerJob (missedPrayerJob s rows today now).1
        rows today now).1 = (missedPrayerJob s rows today now).1 := by
  have hc5 := c5_sweep_inserts s rows today now hrows hkeys
  have hnoop : (sweepItems rows).foldl (sweepItem today now)
      ((missedPrayerJob s rows today now).1, ⟨0, 0⟩) =
      ((missedPrayerJob s rows today now).1, ⟨0, 0⟩) := by
    apply sweepFold_noop
    intro it hit hopen
    by_cases hx : logExists s it.1.user today it.2
    · obtain ⟨l, hl, hp⟩ := hx
      exact ⟨l, by
        rw [hc5.1]
        exact List.mem_append_left _ hl, hp⟩
    · have hq : qualifies s today now it := ⟨by omega, hx⟩
      have hmem : it ∈ missedFor s rows today now := by
        unfold missedFor
        rw [List.mem_filter]
        exact ⟨hit, by simpa using hq⟩
      refine ⟨missedLog it.1.user today it.2 it.1.timings, ?_, rfl, rfl, rfl⟩
      rw [hc5.1]
      exact List.mem_append_right _ (List.mem_map.2 ⟨it, hmem, rfl⟩)
  have hrun2 : missedPrayerJob (missedPrayerJob s rows today now).1
      rows today now =
      ((missedPrayerJob s rows today now).1, ⟨0, 0⟩) := hnoop
  rw [hrun2]
  exact ⟨rfl, rfl⟩

/-- C6 amended witness: the concrete second run at the same instant 15
backfills nothing and keeps the store. -/
theorem c6_witness :
    (missedPrayerJob (missedPrayerJob emptyStore [⟨0, cexTimings⟩] 0 15).1
        [⟨0, cexTimings⟩] 0 15).2.missed = 0 ∧
    (missedPrayerJob (missedPrayerJob emptyStore [⟨0, cexTimings⟩] 0 15).1
        [⟨0, cexTimings⟩] 0 15).1 =
      (missedPrayerJob emptyStore [⟨0, cexTimings⟩] 0 15).1 :=
  c6_idempotent_same_now emptyStore [⟨0, cexTimings⟩] 0 15 (by decide)
    (by decide)

/-- C6 counterexample: sweeping at instant 15 (fajr missed) and again at
the later instant 35 yields missedCount 1, not 0, on the second run: the
dhuhr window (end 30) closed in between. -/
theorem c6_counterexample :
    (missedPrayerJob (missedPrayerJob emptyStore [⟨0, cexTimings⟩] 0 15).1
        [⟨0, cexTimings⟩] 0 35).2.missed = 1 ∧
    ¬ (missedPrayerJob (missedPrayerJob emptyStore [⟨0, cexTimings⟩] 0 15).1
        [⟨0, cexTimings⟩] 0 35).2.missed = 0 := by
  constructor
  · decide
  · decide

/-- Membership in one friend's eligible token rows. -/
theorem mem_friendTokensFor (db : SocialDB) (target : Nat) (ntype : String)
    (nowTime : Nat) (f g : Nat) (tok : String) :
    (tok, g) ∈ friendTokensFor db target ntype nowTime f ↔
      (g = f ∧ (f, tok) ∈ db.deviceTokens ∧
        ∃ us, lookupSettings db f = some us ∧ (f, target) ∉ db.blocks ∧
          prefEnabled us ntype = true ∧ inQuietHours us nowTime = false) := by
  unfold friendTokensFor
  cases hls : lookupSettings db f with
  | none =>
    show (tok, g) ∈ ([] : List (String × Nat)) ↔ _
    constructor
    · intro hmem
      cases hmem
    · rintro ⟨_, _, us2, hus2, _⟩
      cases hus2
  | some us =>
    show ((tok, g) ∈ if (f, target) ∉ db.blocks ∧
        prefEnabled us ntype = true ∧ inQuietHours us nowTime = false then
        (db.deviceTokens.filter fun dt => decide (dt.1 = f)).map fun dt =>
          (dt.2, f)
      else []) ↔ _
    by_cases hc : (f, target) ∉ db.blocks ∧ prefEnabled us ntype = true ∧
        inQuietHours us nowTime = false
    · rw [if_pos hc]
      constructor
      · intro hmem
        rcases List.mem_map.1 hmem with ⟨dt, hdt, heq⟩
        have hfil := List.mem_filter.1 hdt
        have hdtu : dt.1 = f := by simpa using hfil.2
        have h1 : dt.2 = tok := congrArg Prod.fst heq
        have h2 : f = g := congrArg Prod.snd heq
        refine ⟨h2.symm, ?_, us, rfl, hc.1, hc.2.1, hc.2.2⟩
        have hpair : dt = (f, tok) := by
          obtain ⟨a, b⟩ := dt
          simp only at hdtu h1
          rw [hdtu, h1]
        rw [← hpair]
        exact hfil.1
      · rintro ⟨hgf, htok, us2, hus2, _⟩
        rw [hgf]
        exact List.mem_map.2 ⟨(f, tok), List.mem_filter.2 ⟨htok, by simp⟩, rfl⟩
    · rw [if_neg hc]
      constructor
      · intro hmem
        cases hmem
      · rintro ⟨_, _, us2, hus2, hnb, hp, hq⟩
        have hux : us2 = us := by
          injection hus2 with hx
          exact hx.symm
        subst hux
        exact (hc ⟨hnb, hp, hq⟩).elim

/-- C9 amended: a (token, friend) row is produced by the resolver exactly
when the friend is an accepted friend of the acting user owning that
device token, the friend has a settings row, the friend has not blocked
the acting user (blocks by the acting user are not checked), the friend's
per-category preference is enabled, and the friend is outside quiet hours
(wraparound ranges supported). -/
theorem c9_recipients (db : SocialDB) (target : Nat) (ntype : String)
    (nowTime : Nat) (tok : String) (f : Nat) :
    (tok, f) ∈ fnGetFriendPushTokens db target ntype nowTime ↔
      (f ∈ fnGetFriendIds db target ∧ (f, tok) ∈ db.deviceTokens ∧
        ∃ us, lookupSettings db f = some us ∧ (f, target) ∉ db.blocks ∧
          prefEnabled us ntype = true ∧ inQuietHours us nowTime = false) := by
  unfold fnGetFriendPushTokens
  rw [List.mem_flatMap]
  constructor
  · rintro ⟨g, hg, hmem⟩
    obtain ⟨hfg, hrest⟩ := (mem_friendTokensFor db target ntype nowTime
      g f tok).1 hmem
    subst hfg
    exact ⟨hg, hrest⟩
  · rintro ⟨hfr, hrest⟩
    exact ⟨f, hfr, (mem_friendTokensFor db target ntype nowTime
      f f tok).2 ⟨rfl, hrest⟩⟩

/-- C9 counterexample: in `c9DB` the acting user 0 has blocked friend 1,
yet the resolver still returns friend 1's token, while the specification's
recipient set (both block directions excluded) does not contain it. -/
theorem c9_counterexample :
    ("t", 1) ∈ fnGetFriendPushTokens c9DB 0 "friend_prayer" 0 ∧
    ¬ claimRecipients c9DB 0 "friend_prayer" 0 "t" 1 := by
  constructor
  · decide
  · decide

/-- Log count over an extended table. -/
theorem countTriple_append_single (logs : List PrayerLog) (lg : PrayerLog)
    (u d : Nat) (p : Prayer) :
    countTriple (logs ++ [lg]) u d p = countTriple logs u d p +
      (if lg.user = u ∧ lg.date = d ∧ lg.prayer = p then 1 else 0) := by
  unfold countTriple
  rw [List.countP_append]
  by_cases h : lg.user = u ∧ lg.date = d ∧ lg.prayer = p <;> simp [h]

/-- Scored-entry count over an extended ledger. -/
theorem countScored_append_single (led : List LedgerEntry) (e : LedgerEntry)
    (u d : Nat) (p : Prayer) :
    countScored (led ++ [e]) u d p = countScored led u d p +
      (if e.user = u ∧ e.date = d ∧ e.prayer = some p ∧ e.points ≠ 0
        then 1 else 0) := by
  unfold countScored
  rw [List.countP_append]
  by_cases h : e.user = u ∧ e.date = d ∧ e.prayer = some p ∧ e.points ≠ 0 <;>
    simp [h]

/-- In-flight-request count around one distinguished request. -/
theorem countScoredProcs_decomp (l r : List MProc) (x : MProc) (u d : Nat)
    (p : Prayer) :
    countScoredProcs (l ++ x :: r) u d p =
      countScoredProcs l u d p + countScoredProcs r u d p +
        (if x.user = u ∧ x.date = d ∧ x.prayer = p ∧ x.phase = .logDone ∧
            statusPoints x.status ≠ 0 then 1 else 0) := by
  unfold countScoredProcs
  rw [List.countP_append, List.countP_cons]
  by_cases h : x.user = u ∧ x.date = d ∧ x.prayer = p ∧ x.phase = .logDone ∧
      statusPoints x.status ≠ 0 <;> simp [h] <;> omega

/-- Absent record means zero rows for the triple, and conversely. -/
theorem not_logExists_iff_countTriple (s : Store) (u d : Nat) (p : Prayer) :
    ¬ logExists s u d p ↔ countTriple s.prayerLogs u d p = 0 := by
  unfold logExists countTriple
  rw [List.countP_eq_zero]
  simp

/-- A request not at phase logDone contributes nothing to the in-flight
count. -/
theorem countScoredProcs_nonLogDone (l r : List MProc) (x : MProc)
    (hx : ¬ x.phase = .logDone) (u d : Nat) (p : Prayer) :
    countScoredProcs (l ++ x :: r) u d p =
      countScoredProcs l u d p + countScoredProcs r u d p := by
  rw [countScoredProcs_decomp,
    if_neg (fun hcon => hx hcon.2.2.2.1)]
  omega

/-- A request at phase logDone contributes its triple match to the
in-flight count. -/
theorem countScoredProcs_logDone (l r : List MProc) (x : MProc)
    (hx : x.phase = .logDone) (u d : Nat) (p : Prayer) :
    countScoredProcs (l ++ x :: r) u d p =
      countScoredProcs l u d p + countScoredProcs r u d p +
        (if x.user = u ∧ x.date = d ∧ x.prayer = p ∧
            statusPoints x.status ≠ 0 then 1 else 0) := by
  rw [countScoredProcs_decomp]
  by_cases hm : x.user = u ∧ x.date = d ∧ x.prayer = p ∧
      statusPoints x.status ≠ 0
  · rw [if_pos ⟨hm.1, hm.2.1, hm.2.2.1, hx, hm.2.2.2⟩, if_pos hm]
  · rw [if_neg (fun hcon => hm ⟨hcon.1, hcon.2.1, hcon.2.2.1, hcon.2.2.2.2⟩),
      if_neg hm]

/-- Each atomic step of the interleaved machine preserves the concurrency
invariant. -/
theorem concInv_step (c c' : Config) (hstep : Step c c') (hi : ConcInv c) :
    ConcInv c' := by
  cases hstep with
  | logOk s l r pr hph hno =>
    obtain ⟨hi1, hi2, hi3⟩ := hi
    simp only [] at hi1 hi2 hi3
    have hc0 : countTriple s.prayerLogs pr.user pr.date pr.prayer = 0 :=
      (not_logExists_iff_countTriple s pr.user pr.date pr.prayer).1 hno
    have hz := hi3 pr.user pr.date pr.prayer hno
    have hphn : ¬ pr.phase = Phase.logDone := by
      rw [hph]
      decide
    refine ⟨?_, ?_, ?_⟩
    · intro u d p
      show countTriple (s.prayerLogs ++ [procLog pr]) u d p ≤ 1
      rw [countTriple_append_single]
      simp only [procLog]
      by_cases hm : pr.user = u ∧ pr.date = d ∧ pr.prayer = p
      · obtain ⟨rfl, rfl, rfl⟩ := hm
        rw [if_pos ⟨rfl, rfl, rfl⟩, hc0]
      · rw [if_neg hm]
        have := hi1 u d p
        omega
    · intro u d p
      show countScored s.ledger u d p + countScoredProcs
        (l ++ { pr with phase := .logDone } :: r) u d p ≤ 1
      rw [countScoredProcs_logDone l r _ rfl]
      have holdB := hi2 u d p
      rw [countScoredProcs_nonLogDone l r pr hphn] at holdB
      by_cases hm : pr.user = u ∧ pr.date = d ∧ pr.prayer = p ∧
          statusPoints pr.status ≠ 0
      · obtain ⟨rfl, rfl, rfl, hm4⟩ := hm
        rw [if_pos ⟨rfl, rfl, rfl, hm4⟩]
        have hz1 := hz.1
        have hz2 := hz.2
        rw [countScoredProcs_nonLogDone l r pr hphn] at hz2
        omega
      · rw [if_neg hm]
        omega
    · intro u d p hnx
      have hnx0 : countTriple (s.prayerLogs ++ [procLog pr]) u d p = 0 :=
        (not_logExists_iff_countTriple _ u d p).1 hnx
      rw [countTriple_append_single] at hnx0
      simp only [procLog] at hnx0
      have hms : ¬ (pr.user = u ∧ pr.date = d ∧ pr.prayer = p) := by
        intro hm
        rw [if_pos hm] at hnx0
        omega
      have hnxold : ¬ logExists s u d p := by
        rw [not_logExists_iff_countTriple]
        omega
      have hzold := hi3 u d p hnxold
      refine ⟨hzold.1, ?_⟩
      show countScoredProcs (l ++ { pr with phase := .logDone } :: r) u d p = 0
      rw [countScoredProcs_logDone l r _ rfl,
        if_neg (fun hcon => hms ⟨hcon.1, hcon.2.1, hcon.2.2.1⟩)]
      have hz2 := hzold.2
      rw [countScoredProcs_nonLogDone l r pr hphn] at hz2
      omega
  | logConflict s l r pr hph hex =>
    obtain ⟨hi1, hi2, hi3⟩ := hi
    simp only [] at hi1 hi2 hi3
    have hphn : ¬ pr.phase = Phase.logDone := by
      rw [hph]
      decide
    refine ⟨hi1, ?_, ?_⟩
    · intro u d p
      show countScored s.ledger u d p + countScoredProcs
        (l ++ { pr with phase := .failed } :: r) u d p ≤ 1
      rw [countScoredProcs_nonLogDone l r _ (by simp)]
      have holdB := hi2 u d p
      rw [countScoredProcs_nonLogDone l r pr hphn] at holdB
      omega
    · intro u d p hnx
      have hzold := hi3 u d p hnx
      refine ⟨hzold.1, ?_⟩
      show countScoredProcs (l ++ { pr with phase := .failed } :: r) u d p = 0
      rw [countScoredProcs_nonLogDone l r _ (by simp)]
      have hz2 := hzold.2
      rw [countScoredProcs_nonLogDone l r pr hphn] at hz2
      omega
  | ledgerWrite s l r pr hph =>
    obtain ⟨hi1, hi2, hi3⟩ := hi
    simp only [] at hi1 hi2 hi3
    refine ⟨?_, ?_, ?_⟩
    · intro u d p
      show countTriple (insertLedger s (procEntry pr)).prayerLogs u d p ≤ 1
      rw [insertLedger_prayerLogs]
      exact hi1 u d p
    · intro u d p
      show countScored (insertLedger s (procEntry pr)).ledger u d p +
        countScoredProcs (l ++ { pr with phase := .done } :: r) u d p ≤ 1
      rw [insertLedger_ledger,
        countScoredProcs_nonLogDone l r _ (by simp)]
      have holdB := hi2 u d p
      rw [countScoredProcs_logDone l r pr hph] at holdB
      split
      · omega
      · rw [countScored_append_single]
        simp only [procEntry]
        by_cases hm : pr.user = u ∧ pr.date = d ∧ pr.prayer = p ∧
            statusPoints pr.status ≠ 0
        · rw [if_pos ⟨hm.1, hm.2.1, congrArg some hm.2.2.1, hm.2.2.2⟩]
          rw [if_pos hm] at holdB
          omega
        · have hent : ¬ (pr.user = u ∧ pr.date = d ∧
              some pr.prayer = some p ∧ statusPoints pr.status ≠ 0) := by
            intro hcon
            exact hm ⟨hcon.1, hcon.2.1, Option.some.inj hcon.2.2.1,
              hcon.2.2.2⟩
          rw [if_neg hent]
          rw [if_neg hm] at holdB
          omega
    · intro u d p hnx
      have hnxold : ¬ logExists s u d p := by
        have h0 : (insertLedger s (procEntry pr)).prayerLogs = s.prayerLogs :=
          insertLedger_prayerLogs _ _
        rw [not_logExists_iff_countTriple] at hnx ⊢
        rw [h0] at hnx
        exact hnx
      have hzold := hi3 u d p hnxold
      have hz2 := hzold.2
      rw [countScoredProcs_logDone l r pr hph] at hz2
      have hprz : ¬ (pr.user = u ∧ pr.date = d ∧ pr.prayer = p ∧
          statusPoints pr.status ≠ 0) := by
        intro hm
        rw [if_pos hm] at hz2
        omega
      constructor
      · show countScored (insertLedger s (procEntry pr)).ledger u d p = 0
        rw [insertLedger_ledger]
        split
        · exact hzold.1
        · rw [countScored_append_single]
          simp only [procEntry]
          have hent : ¬ (pr.user = u ∧ pr.date = d ∧
              some pr.prayer = some p ∧ statusPoints pr.status ≠ 0) := by
            intro hcon
            exact hprz ⟨hcon.1, hcon.2.1, Option.some.inj hcon.2.2.1,
              hcon.2.2.2⟩
          rw [if_neg hent]
          have := hzold.1
          omega
      · show countScoredProcs (l ++ { pr with phase := .done } :: r) u d p = 0
        rw [countScoredProcs_nonLogDone l r _ (by simp)]
        rw [if_neg hprz] at hz2
        omega

/-- A collection of requests that have not yet written anything over the
empty store satisfies the concurrency invariant. -/
theorem concInv_init (ps : List MProc)
    (hps : ∀ pr ∈ ps, pr.phase = .start) : ConcInv (initConfig ps) := by
  have hzero : ∀ u d p, countScoredProcs ps u d p = 0 := by
    intro u d p
    unfold countScoredProcs
    rw [List.countP_eq_zero]
    intro pr hpr
    simp [hps pr hpr]
  refine ⟨?_, ?_, ?_⟩
  · intro u d p
    show countTriple ([] : List PrayerLog) u d p ≤ 1
    simp [countTriple]
  · intro u d p
    show countScored ([] : List LedgerEntry) u d p +
      countScoredProcs ps u d p ≤ 1
    rw [hzero]
    simp [countScored]
  · intro u d p _
    constructor
    · show countScored ([] : List LedgerEntry) u d p = 0
      simp [countScored]
    · exact hzero u d p

/-- The concurrency invariant holds in every reachable configuration. -/
theorem concInv_reachable (c c' : Config)
    (h : Relation.ReflTransGen Step c c') (hi : ConcInv c) : ConcInv c' := by
  induction h with
  | refl => exact hi
  | tail _ hstep ih => exact concInv_step _ _ hstep ih

/-- C2: starting from the empty store with any collection of marking
requests and sweep iterations, in every configuration reachable by
interleaving their single-row writes there is at most one PrayerRecord per
(user, date, prayer) and at most one nonzero-point ledger entry per
triple; since neither table deletes rows, at most one of each is ever
inserted, and in particular a second MarkPrayer for a triple never adds a
second record or a second scored entry. -/
theorem c2_at_most_one (ps : List MProc)
    (hps : ∀ pr ∈ ps, pr.phase = .start) (c : Config)
    (hreach : Relation.ReflTransGen Step (initConfig ps) c)
    (u d : Nat) (p : Prayer) :
    countTriple c.store.prayerLogs u d p ≤ 1 ∧
    countScored c.store.ledger u d p ≤ 1 := by
  have hi := concInv_reachable _ _ hreach (concInv_init ps hps)
  exact ⟨hi.1 u d p, le_trans (Nat.le_add_right _ _) (hi.2.1 u d p)⟩

/-- C2 witness: the initial configuration itself (empty request list),
reached in zero steps. -/
theorem c2_witness :
    countTriple (initConfig []).store.prayerLogs 0 0 .fajr ≤ 1 ∧
    countScored (initConfig []).store.ledger 0 0 .fajr ≤ 1 :=
  c2_at_most_one [] (by simp) (initConfig []) Relation.ReflTransGen.refl
    0 0 .fajr
